import Mathlib

/-!
Verification of the GobyWallet/openapi core against its specification.

Byte strings are modelled as `List Nat` (each entry a byte value).  Python
integers are `Int`/`Nat`.  Fallible Python code (exceptions) is modelled with
`Option`/`Except`.  SHA-256 is treated as an abstract hash parameter
`H : List Nat → List Nat`: every theorem that involves hashing is proved for an
arbitrary `H`, which is sound because the source only ever composes and
compares digests.
-/

namespace OpenApi

abbrev Bytes := List Nat

/-- Bit length of a natural by repeated halving; the first argument is fuel,
and `n` halvings always suffice for `n` (structural recursion keeps this
kernel-evaluable). -/
def natBitLenGo : Nat → Nat → Nat
  | 0, _ => 0
  | fuel + 1, n => if n = 0 then 0 else natBitLenGo fuel (n / 2) + 1

/-- Python `int.bit_length()` — the number of bits needed for `|v|`. -/
def pyBitLength (v : Int) : Nat := natBitLenGo v.natAbs v.natAbs

/-- Big-endian base-256 digits of `v`, exactly `count` bytes (`int.to_bytes`
on the unsigned residue). -/
def natToBytesBE : Nat → Nat → Bytes
  | 0, _ => []
  | count + 1, v => natToBytesBE count (v / 256) ++ [v % 256]

/-- Python `v.to_bytes(count, "big", signed=True)` for a value that fits:
the two's-complement residue of `v` modulo `2^(8*count)`, big-endian. -/
def intToBytesBE (v : Int) (count : Nat) : Bytes :=
  natToBytesBE count (v.emod (2 ^ (8 * count))).toNat

/-- The minimality strip loop of `int_to_bytes`
(`while len(r) > 1 and r[0] == (0xFF if r[1] & 0x80 else 0): r = r[1:]`). -/
def stripSignBytes : Bytes → Bytes
  | b0 :: b1 :: rest =>
    if b0 = (if b1 &&& 0x80 ≠ 0 then 0xFF else 0) then stripSignBytes (b1 :: rest)
    else b0 :: b1 :: rest
  | l => l

/-- `int_to_bytes` from `src/openapi/utils/__init__.py`: minimal signed
big-endian encoding of an integer. -/
def int_to_bytes (v : Int) : Bytes :=
  let byteCount := (pyBitLength v + 8) >>> 3
  if v = 0 then [] else stripSignBytes (intToBytesBE v byteCount)

/-- Modelled from the spec: `clvm.casts.int_to_bytes`, the
"minimal-signed-bytes(amount)" of §3 used by `Coin.name` in
`src/openapi/types.py`; the clvm package itself is outside `src/`.  Its body
is the same minimal signed big-endian encoding as the local `int_to_bytes`. -/
def clvm_int_to_bytes (v : Int) : Bytes :=
  let byteCount := (pyBitLength v + 8) >>> 3
  if v = 0 then [] else stripSignBytes (intToBytesBE v byteCount)

/-- Unsigned big-endian value of a byte string. -/
def bytesToNatBE (l : Bytes) : Nat := l.foldl (fun acc b => acc * 256 + b) 0

/-- Modelled from the spec: `clvm.casts.int_from_bytes` (signed big-endian
decode), used by `Program.as_int` in `src/openapi/types.py`. -/
def int_from_bytes (l : Bytes) : Int :=
  if l = [] then 0
  else if 0x80 ≤ l.headI then (bytesToNatBE l : Int) - ((2 ^ (8 * l.length) : Nat) : Int)
  else (bytesToNatBE l : Int)

/-! ### The program model

§3 of the spec: an immutable binary tree whose leaves are byte-string atoms. -/

inductive Program where
  | atom (a : Bytes)
  | pair (l r : Program)
deriving DecidableEq, Repr

/-- The nil / empty-atom program (`Program.to(0)`, `Program.to([])`). -/
def Program.nil : Program := .atom []

/-! ### Canonical serialization

Modelled from the spec (§4.1: "recursively parse a tag-prefixed binary stream
into atom/pair nodes; reject trailing bytes", "Encode is the exact inverse"):
the serializer/deserializer the repository uses are `clvm.serialize`'s
`sexp_to_stream`/`sexp_from_stream`, which `Program.parse`, `Program.stream`,
`Program.from_bytes` and `Program.__bytes__` in `src/openapi/types.py`
delegate to; the clvm package is outside `src/`.  Python's `size >> k` and
`size & 0xFF` on non-negative sizes are written `/ 2^k` and `% 256`. -/

/-- The size prefix for an atom of `size` bytes (`atom_to_byte_iterator`).
`none` models the `ValueError("sexp too long")` raised for oversized atoms. -/
def atomSizeBlob (size : Nat) : Option Bytes :=
  if size < 0x40 then some [0x80 ||| size]
  else if size < 0x2000 then some [0xC0 ||| (size / 256), size % 256]
  else if size < 0x100000 then
    some [0xE0 ||| (size / 65536), (size / 256) % 256, size % 256]
  else if size < 0x8000000 then
    some [0xF0 ||| (size / 16777216), (size / 65536) % 256, (size / 256) % 256, size % 256]
  else if size < 0x400000000 then
    some [0xF8 ||| (size / 4294967296), (size / 16777216) % 256, (size / 65536) % 256,
      (size / 256) % 256, size % 256]
  else none

/-- Serialization of one atom: the empty atom is `0x80`, a one-byte atom
`≤ 0x7F` is itself, otherwise a size prefix followed by the bytes. -/
def serializeAtom (a : Bytes) : Option Bytes :=
  if a = [] then some [0x80]
  else if a.length = 1 ∧ a.headI ≤ 0x7F then some a
  else (atomSizeBlob a.length).map (· ++ a)

/-- `sexp_to_stream`: a pair is `0xFF` followed by both children. -/
def serialize : Program → Option Bytes
  | .atom a => serializeAtom a
  | .pair l r => do
    let sl ← serialize l
    let sr ← serialize r
    pure (0xFF :: (sl ++ sr))

/-- The `while b & bit_mask` loop of `_atom_from_stream`: count and clear the
leading one bits of the tag byte.  At most 8 iterations are possible, so the
fuel of 8 used by `clearOnes` is never exhausted. -/
def clearOnesGo : Nat → Nat → Nat → Nat → Nat × Nat
  | 0, b, _, cnt => (cnt, b)
  | fuel + 1, b, mask, cnt =>
    if b &&& mask ≠ 0 then clearOnesGo fuel (b &&& (0xFF ^^^ mask)) (mask >>> 1) (cnt + 1)
    else (cnt, b)

def clearOnes (b : Nat) : Nat × Nat := clearOnesGo 8 b 0x80 0

/-- `f.read(n)` with the subsequent length check: `none` models the
`ValueError("bad encoding")` raised on a short read. -/
def readN (n : Nat) (l : Bytes) : Option (Bytes × Bytes) :=
  if n ≤ l.length then some (l.take n, l.drop n) else none

/-- `sexp_from_stream`/`_atom_from_stream`: parse one program from the front
of the stream, returning it with the unconsumed remainder.  `none` models any
raised `ValueError`.  The fuel argument only bounds the recursion; every
recursive call consumes at least one byte, so `length + 1` fuel is enough for
any complete parse. -/
def parseSE : Nat → Bytes → Option (Program × Bytes)
  | 0, _ => none
  | _ + 1, [] => none
  | fuel + 1, b :: rest =>
    if b = 0xFF then do
      let (l, r1) ← parseSE fuel rest
      let (r, r2) ← parseSE fuel r1
      pure (.pair l r, r2)
    else if b = 0x80 then some (.atom [], rest)
    else if b ≤ 0x7F then some (.atom [b], rest)
    else
      let bc := clearOnes b
      match readN (bc.1 - 1) rest with
      | none => none
      | some (szExtra, rest1) =>
        let size := bytesToNatBE (bc.2 :: szExtra)
        if 0x400000000 ≤ size then none
        else match readN size rest1 with
          | none => none
          | some (blob, rest2) => some (.atom blob, rest2)

/-- `Program.from_bytes` (`src/openapi/types.py`): parse the whole buffer and
`assert f.read() == b""`; `none` models a raised error (bad encoding or
trailing bytes). -/
def from_bytes (blob : Bytes) : Option Program :=
  match parseSE (blob.length + 1) blob with
  | some (p, []) => some p
  | _ => none

/-! ### Program accessors

Python exceptions raised by the accessors are modelled with `Except`. -/

inductive PyErr where
  | typeErr      -- TypeError
  | valueErr     -- ValueError (also EvalError, which subclasses it in spirit)
  | attributeErr -- AttributeError
  | assertionErr -- AssertionError
deriving DecidableEq, Repr

namespace Program

/-- `.listp()`. -/
def listp : Program → Bool
  | .pair _ _ => true
  | .atom _ => false

/-- `.first()`; raises `EvalError("first of non-cons")` on an atom. -/
def firstE : Program → Except PyErr Program
  | .pair l _ => .ok l
  | .atom _ => .error .valueErr

/-- `.rest()`; raises `EvalError("rest of non-cons")` on an atom. -/
def restE : Program → Except PyErr Program
  | .pair _ r => .ok r
  | .atom _ => .error .valueErr

/-- `.as_atom()` / `.atom`: the bytes of an atom, Python `None` on a pair. -/
def asAtom : Program → Option Bytes
  | .atom a => some a
  | .pair _ _ => none

/-- `.as_int()` = `int_from_bytes(self.as_atom())`; on a pair `as_atom()` is
`None` and `int_from_bytes(None)` raises `TypeError`. -/
def asIntE : Program → Except PyErr Int
  | .atom a => .ok (int_from_bytes a)
  | .pair _ _ => .error .typeErr

/-- `.as_iter()` materialised: the item list of a (possibly improper) list. -/
def items : Program → List Program
  | .atom _ => []
  | .pair l r => l :: items r

/-- `.list_len()`: the number of leading pairs. -/
def listLen (p : Program) : Nat := (items p).length

/-- `Program.to` of a Python list of programs: the proper list. -/
def toList : List Program → Program
  | [] => .atom []
  | p :: ps => .pair p (toList ps)

/-- `Program.to` of a small non-negative Python int (`1`, `2`, `4`):
the atom holding its minimal signed encoding. -/
def ofInt (n : Int) : Program := .atom (int_to_bytes n)

/-- `Program.curry` (`src/openapi/types.py`): `fixed_args = 1`; for each arg
in reverse, `fixed_args = [4, (1, arg), fixed_args]`.  Processing in reverse
order leaves the first argument outermost, which is what this recursion
produces. -/
def curryArgs : List Program → Program
  | [] => ofInt 1
  | x :: xs => toList [ofInt 4, .pair (ofInt 1) x, curryArgs xs]

/-- `Program.curry`: `Program.to([2, (1, self), fixed_args])`. -/
def curry (self : Program) (args : List Program) : Program :=
  toList [ofInt 2, .pair (ofInt 1) self, curryArgs args]

/-- Modelled from the spec: `clvm_tools.curry.uncurry` (§4.1 "`uncurry` is
its structural inverse…"), delegated to by `Program.uncurry` in
`src/openapi/types.py`; the clvm_tools package is outside `src/`.  Its
`match(UNCURRY_PATTERN_FUNCTION, p)` with pattern
`(a (q . (: . function)) (: . core))` succeeds exactly on programs of the
shape `(2 (1 . f) core)`, binding `f` and `core`. -/
def matchFunPattern : Program → Option (Program × Program)
  | .pair (.atom [2]) (.pair (.pair (.atom [1]) f) (.pair core (.atom []))) => some (f, core)
  | _ => none

/-- The `while True` stripping loop of `clvm_tools.curry.uncurry`:
`match(UNCURRY_PATTERN_CORE, core)` with pattern `(c (q . (: . parm)) (: . core))`
succeeds exactly on `(4 (1 . parm) core')`; each match appends `parm` and
descends into `core'`. -/
def stripCoreArgs : Program → List Program → List Program × Program
  | .pair (.atom [4]) (.pair (.pair (.atom [1]) parm) (.pair core (.atom []))), acc =>
    stripCoreArgs core (acc ++ [parm])
  | core, acc => (acc, core)

/-- `clvm_tools.curry.uncurry` (modelled, see `matchFunPattern`): `.ok none`
is Python `return None`; after the stripping loop the source evaluates
`core.as_int()`, which raises `TypeError` when the residual core is a pair. -/
def uncurryRaw (p : Program) : Except PyErr (Option (Program × List Program)) :=
  match matchFunPattern p with
  | none => .ok none
  | some (f, core0) =>
    let sc := stripCoreArgs core0 []
    match asIntE sc.2 with
    | .error e => .error e
    | .ok n => if n = 1 then .ok (some (f, sc.1)) else .ok none

/-- `Program.uncurry` (`src/openapi/types.py`): wrap the clvm_tools uncurry
and turn its `None` into the sentinel `(self, Program.to(0))`. -/
def uncurry (p : Program) : Except PyErr (Program × Program) :=
  match uncurryRaw p with
  | .error e => .error e
  | .ok none => .ok (p, .atom [])
  | .ok (some (f, args)) => .ok (f, toList args)

end Program

/-- Modelled from the spec: `sha256_treehash` of `openapi/utils/tree_hash.py`
(imported by `src/openapi/types.py` but absent from `src/`); §3: "sha256 over
a 1-byte-tagged recursive encoding (atom tag vs pair tag over
hash(left)∥hash(right))".  An atom in the excluded set stands for an
already-computed subtree hash and is returned as-is — this is what lets
`get_tree_hash(x)` in `did.py` derive a full puzzle hash from an inner hash
`x` alone.  The hash `H` is abstract. -/
def treeHash (H : Bytes → Bytes) (excluded : List Bytes) : Program → Bytes
  | .atom a => if a ∈ excluded then a else H (1 :: a)
  | .pair l r => H (2 :: (treeHash H excluded l ++ treeHash H excluded r))

/-! ### Coins and coin names -/

structure Coin where
  parent_coin_info : Bytes
  puzzle_hash : Bytes
  amount : Int
deriving DecidableEq, Repr

/-- `Coin.name` (`src/openapi/types.py`):
`sha256(parent_coin_info + puzzle_hash + clvm.casts.int_to_bytes(amount))`. -/
def Coin.name (H : Bytes → Bytes) (c : Coin) : Bytes :=
  H (c.parent_coin_info ++ c.puzzle_hash ++ clvm_int_to_bytes c.amount)

/-- Value of one hex digit (`bytes.fromhex`). -/
def hexDigitVal (c : Char) : Option Nat :=
  if '0' ≤ c ∧ c ≤ '9' then some (c.toNat - '0'.toNat)
  else if 'a' ≤ c ∧ c ≤ 'f' then some (c.toNat - 'a'.toNat + 10)
  else if 'A' ≤ c ∧ c ≤ 'F' then some (c.toNat - 'A'.toNat + 10)
  else none

/-- `bytes.fromhex` on a plain even-length hex string (the repository never
feeds it the whitespace forms Python would also accept). -/
def hexPairsToBytes : List Char → Option Bytes
  | [] => some []
  | c1 :: c2 :: rest => do
    let h ← hexDigitVal c1
    let l ← hexDigitVal c2
    let tail ← hexPairsToBytes rest
    pure ((h * 16 + l) :: tail)
  | [_] => none

/-- `hexstr_to_bytes` (`src/openapi/utils/__init__.py`): strip a leading
`0x`/`0X` (the `startsWith` checks, written as a pattern match on the
character list) and decode the hex pairs. -/
def hexstr_to_bytes (s : String) : Option Bytes :=
  match s.data with
  | '0' :: 'x' :: rest => hexPairsToBytes rest
  | '0' :: 'X' :: rest => hexPairsToBytes rest
  | l => hexPairsToBytes l

/-- The JSON form of a coin on the RPC wire (hex strings, integer amount). -/
structure CoinJson where
  parent_coin_info : String
  puzzle_hash : String
  amount : Int

/-- `coin_name` (`src/openapi/utils/__init__.py`):
`sha256(hexstr_to_bytes(parent) + hexstr_to_bytes(puzzle_hash) + int_to_bytes(amount))`,
with the local `int_to_bytes`.  `none` models a raised decoding error. -/
def coin_name (H : Bytes → Bytes) (cj : CoinJson) : Option Bytes := do
  let pb ← hexstr_to_bytes cj.parent_coin_info
  let ph ← hexstr_to_bytes cj.puzzle_hash
  pure (H (pb ++ ph ++ int_to_bytes cj.amount))

/-- `Coin.from_json_dict` (`src/openapi/types.py`). -/
def Coin.from_json_dict (cj : CoinJson) : Option Coin := do
  let pb ← hexstr_to_bytes cj.parent_coin_info
  let ph ← hexstr_to_bytes cj.puzzle_hash
  pure ⟨pb, ph, cj.amount⟩

/-! ### Persistence layer (`src/openapi/db.py`)

Tables are modelled as row lists; the JSON snapshot columns are opaque
strings. -/

structure AssetRow where
  coin_id : Bytes
  asset_type : String
  asset_id : Bytes
  confirmed_height : Nat
  spent_height : Nat
  coin : String
  lineage_proof : String
  p2_puzzle_hash : Bytes
  nft_did_id : Option Bytes
  curried_params : String
deriving DecidableEq, Repr

structure AddressSyncRow where
  address : Bytes
  height : Nat
deriving DecidableEq, Repr

structure BlockRow where
  hash : Bytes
  height : Nat
  timestamp : Nat
  prev_hash : Bytes
  is_tx : Bool
deriving DecidableEq, Repr

structure DbState where
  assets : List AssetRow
  address_sync : List AddressSyncRow
  blocks : List BlockRow
deriving DecidableEq, Repr

/-- One chunk's `UPDATE asset SET spent_height WHERE coin_id IN chunk`. -/
def updateSpentChunk (chunk : List Bytes) (spent_height : Nat)
    (assets : List AssetRow) : List AssetRow :=
  assets.map fun a =>
    if a.coin_id ∈ chunk then { a with spent_height := spent_height } else a

/-- `update_asset_coin_spent_height` (`src/openapi/db.py`): one transaction
issuing the update over chunks of 200 coin ids, first chunk first. -/
def update_asset_coin_spent_height (coin_ids : List Bytes) (spent_height : Nat)
    (assets : List AssetRow) : List AssetRow :=
  if hne : coin_ids = [] then assets
  else
    update_asset_coin_spent_height (coin_ids.drop 200) spent_height
      (updateSpentChunk (coin_ids.take 200) spent_height assets)
termination_by coin_ids.length
decreasing_by
  simp only [List.length_drop]
  have : coin_ids.length ≠ 0 := fun hl => hne (List.length_eq_zero.mp hl)
  omega

/-- `reorg` (`src/openapi/db.py`): one transaction with four statements, in
source order — delete confirmed-above, clear spent-above, clamp address sync
heights, delete blocks above. -/
def reorg (block_height : Nat) (st : DbState) : DbState :=
  let assets1 := st.assets.filter (fun a => !decide (block_height < a.confirmed_height))
  let assets2 := assets1.map (fun a =>
    if block_height < a.spent_height then { a with spent_height := 0 } else a)
  let sync3 := st.address_sync.map (fun r =>
    if block_height < r.height then { r with height := block_height } else r)
  let blocks4 := st.blocks.filter (fun b => !decide (block_height < b.height))
  { assets := assets2, address_sync := sync3, blocks := blocks4 }

/-! ### Address asset sync (`src/openapi/sync.py`) -/

/-- A coin record returned by the RPC source, with its coin already decoded
from the wire JSON. -/
structure CoinRecordJson where
  coin : Coin
  confirmed_block_index : Nat
  spent_block_index : Nat
deriving DecidableEq, Repr

/-- A database write performed while syncing an address. -/
inductive DbWrite where
  | saveAsset (a : AssetRow)
  | saveAddressSyncHeight (address : Bytes) (height : Nat)
deriving DecidableEq, Repr

/-- `save_asset` and `save_address_sync_height` are `INSERT OR REPLACE` on the
row key; applying a write replaces any row with the same key. -/
def applyWrite (st : DbState) : DbWrite → DbState
  | .saveAsset a =>
    { st with assets := (st.assets.filter fun b => !decide (b.coin_id = a.coin_id)) ++ [a] }
  | .saveAddressSyncHeight ad h =>
    { st with address_sync :=
      (st.address_sync.filter fun r => !decide (r.address = ad)) ++ [⟨ad, h⟩] }

def applyWrites (st : DbState) (ws : List DbWrite) : DbState := ws.foldl applyWrite st

/-- `get_address_sync_height`: the height column of the row for `address`. -/
def addressHeightOf (st : DbState) (address : Bytes) : Option Nat :=
  (st.address_sync.find? fun r => decide (r.address = address)).map (·.height)

/-- `get_latest_tx_block_number`: greatest height among `is_tx` blocks. -/
def latestTxBlockOf (st : DbState) : Option Nat :=
  ((st.blocks.filter (·.is_tx)).map (·.height)).max?

/-- The database reads `sync_user_assets` performs. -/
structure SyncDbView where
  address_height : Option Nat
  latest_tx_block : Option Nat
deriving DecidableEq, Repr

def dbView (st : DbState) (address : Bytes) : SyncDbView :=
  ⟨addressHeightOf st address, latestTxBlockOf st⟩

/-- The RPC calls `sync_user_assets` performs, as pure data: the node's block
number and `get_coin_records_by_hint(address, False, start, end)` for the
watched address. -/
structure SyncEnv where
  get_block_number : Nat
  get_coin_records_by_hint : Nat → Nat → List CoinRecordJson

/-- `sync_user_assets` (`src/openapi/sync.py`), returning the ordered list of
database writes the call performs.  The per-record `handle_coin` writes (the
did.py/nft.py matcher outcomes) are abstracted as the function argument
`handleCoin`; every theorem below holds for each choice of it. -/
def sync_user_assets (handleCoin : CoinRecordJson → List DbWrite) (address : Bytes)
    (db : SyncDbView) (env : SyncEnv) : List DbWrite :=
  let start_height := match db.address_height with
    | some h => h + 1
    | none => 1
  let end_height := match db.latest_tx_block with
    | some e => e
    | none => env.get_block_number
  if end_height ≤ start_height then []
  else
    ((env.get_coin_records_by_hint start_height (end_height + 1)).map handleCoin).flatten
      ++ [.saveAddressSyncHeight address end_height]

/-! ### Singleton resolution (`src/openapi/sync.py`, `get_and_sync_singleton`) -/

structure SingletonSpendRow where
  singleton_id : Bytes
  coin_id : Bytes
  spent_block_index : Nat
deriving DecidableEq, Repr

/-- The coin spend returned by `get_puzzle_and_solution`, already decoded. -/
structure CoinSpendJson where
  coin : Coin
  puzzle_reveal : Program
  solution : Program
deriving DecidableEq, Repr

/-- Errors of `get_and_sync_singleton`: the two `ValueError`s of the source
(by their messages `more than one odd coin` / `This is not a singleton`) plus
fuel exhaustion, which stands for the unbounded source loop not returning. -/
inductive SingletonErr where
  | moreThanOneOdd
  | notASingleton
  | outOfFuel
deriving DecidableEq, Repr

/-- The RPC calls of `get_and_sync_singleton`:
`get_coin_records_by_parent_ids([fetch_coin_id], True, start, end)` and
`get_puzzle_and_solution(coin_id, height)`. -/
structure SingletonEnv where
  by_parent_ids : Bytes → Option Nat → Option Nat → List CoinRecordJson
  get_puzzle_and_solution : Bytes → Nat → CoinSpendJson

/-- One step of the odd-amount scan (`if cr['coin']['amount'] % 2 == 1`). -/
def findOddStep (acc : Except SingletonErr (Option CoinRecordJson))
    (cr : CoinRecordJson) : Except SingletonErr (Option CoinRecordJson) :=
  match acc with
  | .error e => .error e
  | .ok prev =>
    if cr.coin.amount.emod 2 = 1 then
      match prev with
      | some _ => .error .moreThanOneOdd
      | none => .ok (some cr)
    else .ok prev

/-- The odd-amount scan of one loop iteration: starting from
`odd_coin_record = None`, raise on a second odd-amount record. -/
def findOddCoin (records : List CoinRecordJson) :
    Except SingletonErr (Option CoinRecordJson) :=
  records.foldl findOddStep (.ok none)

/-- The number of odd-amount records in a query result. -/
def countOddAmount (records : List CoinRecordJson) : Nat :=
  (records.filter (fun cr => decide (cr.coin.amount.emod 2 = 1))).length

/-- The `while spent_block_index is None or spent_block_index > 0` loop of
`get_and_sync_singleton`, returning the final `odd_coin_record` (`none` both
when the loop was never entered and when an iteration found no odd child). -/
def singletonWalk (H : Bytes → Bytes) (env : SingletonEnv) :
    Nat → Bytes → Option Nat → Except SingletonErr (Option CoinRecordJson)
  | 0, _, _ => .error .outOfFuel
  | fuel + 1, fetch_coin_id, spent_block_index =>
    let enter := match spent_block_index with
      | none => true
      | some k => decide (0 < k)
    if enter then
      let end_height : Option Nat := match spent_block_index with
        | some k => if k ≠ 0 then some (k + 1) else none
        | none => none
      match findOddCoin (env.by_parent_ids fetch_coin_id spent_block_index end_height) with
      | .error e => .error e
      | .ok none => .ok none
      | .ok (some cr) =>
        if 0 < cr.spent_block_index then
          singletonWalk H env fuel (cr.coin.name H) (some cr.spent_block_index)
        else .ok (some cr)
    else .ok none

/-- `get_and_sync_singleton` (`src/openapi/sync.py`): resolve a singleton from
the cursor table, returning the updated table, the parent coin spend and the
current coin.  The recursive restart after deleting a stale cursor is the
source's own tail call. -/
def get_and_sync_singleton (H : Bytes → Bytes) (env : SingletonEnv) :
    Nat → List SingletonSpendRow → Bytes →
    Except SingletonErr (List SingletonSpendRow × CoinSpendJson × Coin)
  | 0, _, _ => .error .outOfFuel
  | fuel + 1, table, singleton_id =>
    let row? := table.find? fun r => decide (r.singleton_id = singleton_id)
    let fetch_coin_id := match row? with
      | none => singleton_id
      | some row => row.coin_id
    let spent_block_index : Option Nat := match row? with
      | none => none
      | some row => some row.spent_block_index
    match singletonWalk H env (fuel + 1) fetch_coin_id spent_block_index with
    | .error e => .error e
    | .ok none =>
      match row? with
      | some _ =>
        get_and_sync_singleton H env fuel
          (table.filter fun r => !decide (r.singleton_id = singleton_id)) singleton_id
      | none => .error .notASingleton
    | .ok (some odd) =>
      let parent_coin_id := odd.coin.parent_coin_info
      let table' := (table.filter fun r => !decide (r.singleton_id = singleton_id)) ++
        [⟨singleton_id, parent_coin_id, odd.confirmed_block_index⟩]
      .ok (table', env.get_puzzle_and_solution parent_coin_id odd.confirmed_block_index,
        odd.coin)

/-! ### Block watcher (`src/openapi/watcher.py`) -/

/-- `get_block_by_height(check_height)` as invoked on line 93 of
`src/openapi/watcher.py`: the call omits the `db` argument that
`db.py`'s `get_block_by_height(db, height)` requires, so Python raises
`TypeError` at the call, before any database access. -/
def watcher_get_block_by_height (check_height : Nat) : Except PyErr BlockRow :=
  .error .typeErr

/-- `Watcher.reorg` (`src/openapi/watcher.py` lines 32–35):
`await reorg_db(block_height)` omits the `db` argument of `db.py`'s
`reorg(db, block_height)`, so Python raises `TypeError` at the call. -/
def watcher_reorg (block_height : Nat) : Except PyErr Unit :=
  .error .typeErr

/-- The RPC calls one watcher iteration makes: the block record at a height,
and the removals half of `get_additions_and_removals(header_hash)` with coins
decoded. -/
structure WatcherEnv where
  get_block_record_by_height : Nat → BlockRow
  get_removals : Bytes → List Coin

/-- The backward fork scan (`while check_height:` in `Watcher.start`):
compare the source block hash against the stored one per height.  On a match
the matched stored block is returned (Python rebinds `prev_block` to it);
reaching height 0 leaves the loop without a match. -/
def forkScan (env : WatcherEnv) : Nat → Except PyErr (Nat × Option BlockRow)
  | 0 => .ok (0, none)
  | check_height + 1 => do
    let bc := env.get_block_record_by_height (check_height + 1)
    let db_block ← watcher_get_block_by_height (check_height + 1)
    if bc.hash = db_block.hash then pure (check_height + 1, some db_block)
    else forkScan env check_height

/-- `coin_name(**coin_record['coin'])` with the hex fields already decoded:
the local `int_to_bytes` applied to the amount. -/
def coinNameOfCoin (H : Bytes → Bytes) (c : Coin) : Bytes :=
  H (c.parent_coin_info ++ c.puzzle_hash ++ int_to_bytes c.amount)

/-- `Watcher.new_block`: collect the removal ids and mark them spent at the
block's height. -/
def watcher_new_block (H : Bytes → Bytes) (env : WatcherEnv) (db : DbState)
    (block : BlockRow) : DbState :=
  let removals_id := (env.get_removals block.hash).map (coinNameOfCoin H)
  { db with assets := update_asset_coin_spent_height removals_id block.height db.assets }

/-- One iteration of the `while True` loop of `Watcher.start`, after the
fetched record at `start_height` has been converted to a `BlockRow`.
Returns the database, the new `prev_block` and the next `start_height`. -/
def watcherIteration (H : Bytes → Bytes) (env : WatcherEnv) (db : DbState)
    (prev_block : Option BlockRow) (start_height : Nat) :
    Except PyErr (DbState × Option BlockRow × Nat) :=
  let block := env.get_block_record_by_height start_height
  let normal : Except PyErr (DbState × Option BlockRow × Nat) :=
    let db1 := if block.is_tx then watcher_new_block H env db block else db
    let db2 := { db1 with blocks := db1.blocks ++ [block] }
    .ok (db2, some block, start_height + 1)
  match prev_block with
  | some pb =>
    if pb.hash ≠ block.prev_hash then do
      let scanned ← forkScan env (start_height - 1)
      let _ ← watcher_reorg scanned.1
      pure (db, (match scanned.2 with | some b => some b | none => prev_block),
        scanned.1 + 1)
    else normal
  | none => normal

/-! ### The sendtx endpoint (`src/openapi/api.py`, `create_transaction`) -/

/-- One `push_tx` outcome: success with a status, a `ValueError` whose text
contains `NO_TRANSACTIONS_WHILE_SYNCING`, or any other `ValueError`. -/
inductive PushOutcome where
  | success (status : String)
  | errSyncing
  | errOther (msg : String)
deriving DecidableEq, Repr

inductive HttpResult where
  | success (status : String)
  | badRequest (msg : String)
  | badRequestTimeout
deriving DecidableEq, Repr

/-- What one `/sendtx` call did: its result, how many `push_tx` attempts it
made, and how many fixed 5-second delays (`asyncio.sleep(5)`) it slept. -/
structure SendTxTrace where
  result : HttpResult
  attempts : Nat
  sleeps : Nat
deriving DecidableEq, Repr

/-- The `while retry_during_sync_number:` loop of `create_transaction`:
decrement the counter, call `push_tx`; success returns the status; a
still-syncing `ValueError` sleeps 5s and retries; any other `ValueError`
raises HTTP 400; an exhausted counter raises HTTP 400 `sendtx: timeout`. -/
def sendTxLoop (push : Nat → PushOutcome) :
    Nat → Nat → Nat → Nat → SendTxTrace
  | 0, _, attempts, sleeps => ⟨.badRequestTimeout, attempts, sleeps⟩
  | counter + 1, attempt, attempts, sleeps =>
    match push attempt with
    | .success status => ⟨.success status, attempts + 1, sleeps⟩
    | .errSyncing => sendTxLoop push counter (attempt + 1) (attempts + 1) (sleeps + 1)
    | .errOther msg => ⟨.badRequest msg, attempts + 1, sleeps⟩

/-- `create_transaction` (`src/openapi/api.py`): `retry_during_sync_number = 2`
bounds the loop; `push n` is the outcome of the (n+1)-th `push_tx` call. -/
def create_transaction (push : Nat → PushOutcome) : SendTxTrace :=
  sendTxLoop push 2 0 0 0

/-! ### The NFT condition scan (`src/openapi/nft.py`, `get_metadata_and_phs`) -/

/-- The body of the `for condition in conditions.as_iter()` loop of
`get_metadata_and_phs`, on the running `(metadata, puzhash_for_derivation)`
state.  The `elif` guard evaluates `condition.rest().rest().first().as_int()`
before the duplicate check, so its exceptions propagate; the duplicate check
`is not None` is against the previously assigned `as_atom()` value, which is
itself `None` when that destination was a pair. -/
def scanCondition (updateMeta : Program → Program → Except PyErr Program)
    (st : Program × Option Bytes) (condition : Program) :
    Except PyErr (Program × Option Bytes) := do
  let (metadata, pfd) := st
  if condition.listLen < 2 then pure (metadata, pfd)
  else do
    let codeP ← condition.firstE
    let condition_code ← codeP.asIntE
    if condition_code = -24 then do
      let m' ← updateMeta metadata condition
      pure (m', pfd)
    else if condition_code = 51 then do
      let r1 ← condition.restE
      let r2 ← r1.restE
      let flagP ← r2.firstE
      let flag ← flagP.asIntE
      if flag = 1 then
        match pfd with
        | some _ => pure (metadata, pfd)
        | none => do
          let destP ← condition.restE >>= Program.firstE
          pure (metadata, destP.asAtom)
      else pure (metadata, pfd)
    else pure (metadata, pfd)

/-- `get_metadata_and_phs` (`src/openapi/nft.py`) as a function of the
condition list the p2 puzzle emitted (`conditions = p2_puzzle.run(...)`;
running the puzzle is outside this model, so the resulting conditions program
is the input).  `update_metadata` only transforms the metadata value and is
abstracted as `updateMeta`; the theorems below hold for every choice of it.
The final `assert puzhash_for_derivation` fails on `None` and on the empty
atom (Python truthiness of `b""`). -/
def get_metadata_and_phs (updateMeta : Program → Program → Except PyErr Program)
    (metadata0 : Program) (conditions : Program) : Except PyErr (Program × Bytes) := do
  let final ← (conditions.items).foldlM (scanCondition updateMeta) (metadata0, none)
  match final.2 with
  | some l => if l = [] then .error .assertionErr else pure (final.1, l)
  | none => .error .assertionErr

/-! ### The DID matcher (`src/openapi/did.py`) -/

/-- The curried puzzle constants loaded from the compiled chialisp in
`puzzles.py` (the `.clvm` sources are not in `src/`); all theorems hold for
arbitrary distinct programs. -/
structure DidMods where
  singletonTop : Program
  singletonLauncher : Program
  didInner : Program

/-- `get_did_inner_puzzle_hash` (`src/openapi/did.py`):
`DID_INNERPUZ_MOD.curry(address, recovery_list_hash, num_verification,
singleton_struct, metadata).get_tree_hash(address)`.  `num_verification` is
passed through `Program.to` by `curry`: the first call passes the curried
program, the fallback call passes the Python int `0`, i.e. the empty atom. -/
def get_did_inner_puzzle_hash (H : Bytes → Bytes) (M : DidMods) (address : Bytes)
    (recovery_list_hash : Bytes) (num_verification : Program)
    (singleton_struct metadata : Program) : Bytes :=
  treeHash H [address] (Program.curry M.didInner
    [.atom address, .atom recovery_list_hash, num_verification, singleton_struct, metadata])

/-- `to_full_pzh` (`src/openapi/did.py`). -/
def to_full_pzh (H : Bytes → Bytes) (M : DidMods) (inner_puzzle_hash : Bytes)
    (launcher_id : Bytes) : Bytes :=
  let sth := treeHash H [] M.singletonTop
  let slh := treeHash H [] M.singletonLauncher
  let singleton_struct : Program := .pair (.atom sth) (.pair (.atom launcher_id) (.atom slh))
  treeHash H [inner_puzzle_hash]
    (Program.curry M.singletonTop [singleton_struct, .atom inner_puzzle_hash])

structure DidInfo where
  did_id : Bytes
  coin : Coin
  p2_puzzle_hash : Bytes
  recovery_list_hash : Bytes
  recovery_list : List Bytes
  num_verification : Int
  metadata : Program
  lineage_parent_name : Bytes
  lineage_inner_puzzle_hash : Bytes
  lineage_amount : Int
deriving DecidableEq, Repr

/-- The `try` block of `get_did_info_from_coin_spend`: both uncurry layers
and the mod comparisons; any exception inside it, and each failed comparison,
produce the bare `return` (`none`).  On success the singleton inner puzzle
and the program holding its curried arguments are returned. -/
def didTryBlock (M : DidMods) (puzzle : Program) : Option (Program × Program) :=
  match Program.uncurry puzzle with
  | .error _ => none
  | .ok (mod1, curried_args_pz) =>
    if mod1 ≠ M.singletonTop then none
    else
      match curried_args_pz.restE >>= Program.firstE with
      | .error _ => none
      | .ok singleton_inner =>
        match Program.uncurry singleton_inner with
        | .error _ => none
        | .ok (mod2, curried_args_pz2) =>
          if mod2 ≠ M.didInner then none
          else some (singleton_inner, curried_args_pz2)

/-- The record-building tail of `get_did_info_from_coin_spend` after the
puzzle-hash check: extract the inner solution, read the recovery-list members
only when the (possibly re-bound) `recovery_list_hash` is not the empty-list
hash, then build the record.  `nvE` is the evaluation of
`num_verification.as_int()` in the returned dict: `as_int` of the curried
program on the current-config path, but an `AttributeError` on the
recovery-cleared path where the source re-bound `num_verification` to the
Python int `0`.  A recovery-list entry whose first element is a pair is
modelled as `TypeError` (Python would instead store a non-bytes value; no
theorem below touches that corner). -/
def didInfoTail (H : Bytes → Bytes) (coin parent_coin : Coin)
    (singleton_inner p2_puzzle metadata solution : Program)
    (launcher_id recovery_list_hash : Bytes) (nvE : Except PyErr Int) :
    Except PyErr (Option DidInfo) := do
  let s1 ← solution.restE
  let s2 ← s1.restE
  let inner_solution ← s2.firstE
  let emptyHash := treeHash H [] Program.nil
  let recovery_list ←
    if recovery_list_hash ≠ emptyHash then do
      let r1 ← inner_solution.restE
      let r2 ← r1.restE
      let r3 ← r2.restE
      let r4 ← r3.restE
      let r5 ← r4.restE
      (r5.items).mapM (fun d => do
        let x ← d.firstE
        match x.asAtom with
        | some b => pure b
        | none => Except.error PyErr.typeErr)
    else pure []
  let nv ← nvE
  pure (some
    { did_id := launcher_id
      coin := coin
      p2_puzzle_hash := treeHash H [] p2_puzzle
      recovery_list_hash := recovery_list_hash
      recovery_list := recovery_list
      num_verification := nv
      metadata := metadata
      lineage_parent_name := parent_coin.parent_coin_info
      lineage_inner_puzzle_hash := treeHash H [] singleton_inner
      lineage_amount := parent_coin.amount })

/-- `get_did_info_from_coin_spend` (`src/openapi/did.py`), with the hex
decoding of the wire JSON factored out (`parent_cs` already carries decoded
programs).  `.ok none` is the matcher's no-match `return None`; `.error`
models an uncaught exception:   unpacking the curried args raises
`ValueError` unless there are exactly 5; a pair `recovery_list_hash` leads to
`Program.to(None)` raising `ValueError` inside the later curry; a pair
launcher id makes `bytes(None)` raise `TypeError`. -/
def get_did_info_from_coin_spend (H : Bytes → Bytes) (M : DidMods) (coin : Coin)
    (parent_cs : CoinSpendJson) (address : Bytes) : Except PyErr (Option DidInfo) := do
  let parent_coin := parent_cs.coin
  let puzzle := parent_cs.puzzle_reveal
  match didTryBlock M puzzle with
  | none => pure none
  | some (singleton_inner, curried_args_pz2) =>
    match curried_args_pz2.items with
    | [p2_puzzle, rlhP, nvP, singleton_struct, metadata] => do
      let solution := parent_cs.solution
      match rlhP.asAtom with
      | none => Except.error PyErr.valueErr
      | some recovery_list_hash => do
        let sr ← singleton_struct.restE
        let launcherP ← sr.firstE
        match launcherP.asAtom with
        | none => Except.error PyErr.typeErr
        | some launcher_id => do
          let full_puzzle_hash := to_full_pzh H M
            (get_did_inner_puzzle_hash H M address recovery_list_hash nvP
              singleton_struct metadata) launcher_id
          if coin.puzzle_hash ≠ full_puzzle_hash then do
            let recovery_list_hash' := treeHash H [] Program.nil
            let full_empty_puzzle_hash := to_full_pzh H M
              (get_did_inner_puzzle_hash H M address recovery_list_hash' (.atom [])
                singleton_struct metadata) launcher_id
            if coin.puzzle_hash ≠ full_empty_puzzle_hash then pure none
            else
              didInfoTail H coin parent_coin singleton_inner p2_puzzle metadata solution
                launcher_id recovery_list_hash' (Except.error PyErr.attributeErr)
          else
            didInfoTail H coin parent_coin singleton_inner p2_puzzle metadata solution
              launcher_id recovery_list_hash nvP.asIntE
    | _ => Except.error PyErr.valueErr

/-! ## Helper lemmas -/

/-- The chunked spent-height update equals the single pointwise update. -/
lemma update_spent_bounded : ∀ (n : Nat) (ids : List Bytes), ids.length ≤ n →
    ∀ (h : Nat) (assets : List AssetRow),
    update_asset_coin_spent_height ids h assets =
      assets.map (fun a => if a.coin_id ∈ ids then { a with spent_height := h } else a) := by
  intro n
  induction n with
  | zero =>
    intro ids hlen h assets
    have hids : ids = [] := List.length_eq_zero.mp (Nat.le_zero.mp hlen)
    subst hids
    rw [update_asset_coin_spent_height]
    simp
  | succ n ih =>
    intro ids hlen h assets
    rw [update_asset_coin_spent_height]
    by_cases hids : ids = []
    · subst hids; simp
    · simp only [hids, dite_false, if_neg hids]
      have hlen' : (ids.drop 200).length ≤ n := by
        have h1 : ids.length ≠ 0 := fun hl => hids (List.length_eq_zero.mp hl)
        simp only [List.length_drop]
        omega
      rw [ih (ids.drop 200) hlen' h (updateSpentChunk (ids.take 200) h assets)]
      unfold updateSpentChunk
      rw [List.map_map]
      apply List.map_congr_left
      intro a _
      simp only [Function.comp_apply]
      have hsplit : a.coin_id ∈ ids ↔ a.coin_id ∈ ids.take 200 ∨ a.coin_id ∈ ids.drop 200 := by
        conv_lhs => rw [← List.take_append_drop 200 ids]
        exact List.mem_append
      by_cases ht : a.coin_id ∈ ids.take 200
      · by_cases hd : a.coin_id ∈ ids.drop 200 <;>
          simp [ht, hd, hsplit.mpr (Or.inl ht)]
      · by_cases hd : a.coin_id ∈ ids.drop 200 <;>
          simp [ht, hd, hsplit, or_iff_right ht]

lemma update_spent_eq (ids : List Bytes) (h : Nat) (assets : List AssetRow) :
    update_asset_coin_spent_height ids h assets =
      assets.map (fun a => if a.coin_id ∈ ids then { a with spent_height := h } else a) :=
  update_spent_bounded ids.length ids le_rfl h assets

/-! ## Claim theorems -/

/-- **C1.** For every height `h`, `reorg(h)` run as one transaction
(i) deletes exactly the Asset rows with `confirmed_height > h`,
(ii) resets `spent_height` to 0 exactly on the surviving rows with
`spent_height > h`, (iii) clamps every `AddressSync.height` above `h` down to
`h`, and (iv) deletes exactly the Block rows with `height > h`; consequently
an Asset with `confirmed_height = 100` whose `spent_height` was set to `150`
by `update_asset_coin_spent_height` survives `reorg(120)` with `spent_height`
reset to 0 and every other field unchanged. -/
theorem reorg_transaction_spec :
    (∀ (st : DbState) (h : Nat) (a' : AssetRow),
      a' ∈ (reorg h st).assets ↔ ∃ a, a ∈ st.assets ∧ a.confirmed_height ≤ h ∧
        ((h < a.spent_height ∧ a' = { a with spent_height := 0 }) ∨
         (a.spent_height ≤ h ∧ a' = a)))
  ∧ (∀ (st : DbState) (h : Nat) (r' : AddressSyncRow),
      r' ∈ (reorg h st).address_sync ↔ ∃ r, r ∈ st.address_sync ∧
        ((h < r.height ∧ r' = { r with height := h }) ∨ (r.height ≤ h ∧ r' = r)))
  ∧ (∀ (st : DbState) (h : Nat) (b : BlockRow),
      b ∈ (reorg h st).blocks ↔ b ∈ st.blocks ∧ b.height ≤ h)
  ∧ (∀ (st : DbState) (a : AssetRow), a ∈ st.assets → a.confirmed_height = 100 →
      { a with spent_height := 0 } ∈
        (reorg 120
          { st with assets := update_asset_coin_spent_height [a.coin_id] 150 st.assets }).assets) := by
  have hasset : ∀ (st : DbState) (h : Nat) (a' : AssetRow),
      a' ∈ (reorg h st).assets ↔ ∃ a, a ∈ st.assets ∧ a.confirmed_height ≤ h ∧
        ((h < a.spent_height ∧ a' = { a with spent_height := 0 }) ∨
         (a.spent_height ≤ h ∧ a' = a)) := by
    intro st h a'
    simp only [reorg, List.mem_map, List.mem_filter]
    constructor
    · rintro ⟨a, ⟨hmem, hconf⟩, hval⟩
      refine ⟨a, hmem, by simpa using hconf, ?_⟩
      by_cases hs : h < a.spent_height
      · exact Or.inl ⟨hs, by rw [← hval, if_pos hs]⟩
      · exact Or.inr ⟨Nat.le_of_not_lt hs, by rw [← hval, if_neg hs]⟩
    · rintro ⟨a, hmem, hconf, hcase⟩
      refine ⟨a, ⟨hmem, by simpa using hconf⟩, ?_⟩
      rcases hcase with ⟨hs, rfl⟩ | ⟨hs, rfl⟩
      · rw [if_pos hs]
      · rw [if_neg (Nat.not_lt_of_le hs)]
  refine ⟨hasset, ?_, ?_, ?_⟩
  · intro st h r'
    simp only [reorg, List.mem_map]
    constructor
    · rintro ⟨r, hmem, hval⟩
      refine ⟨r, hmem, ?_⟩
      by_cases hs : h < r.height
      · exact Or.inl ⟨hs, by rw [← hval, if_pos hs]⟩
      · exact Or.inr ⟨Nat.le_of_not_lt hs, by rw [← hval, if_neg hs]⟩
    · rintro ⟨r, hmem, hcase⟩
      refine ⟨r, hmem, ?_⟩
      rcases hcase with ⟨hs, rfl⟩ | ⟨hs, rfl⟩
      · rw [if_pos hs]
      · rw [if_neg (Nat.not_lt_of_le hs)]
  · intro st h b
    constructor
    · intro hb
      have := List.mem_filter.mp hb
      refine ⟨this.1, ?_⟩
      have h2 := this.2
      simp only [Bool.not_eq_eq_eq_not, Bool.not_true, decide_eq_false_iff_not,
        Nat.not_lt] at h2
      exact h2
    · intro hb
      refine List.mem_filter.mpr ⟨hb.1, ?_⟩
      simp only [Bool.not_eq_eq_eq_not, Bool.not_true, decide_eq_false_iff_not, Nat.not_lt]
      exact hb.2
  · intro st a hmem hconf
    rw [hasset]
    refine ⟨{ a with spent_height := 150 }, ?_, by simpa using hconf.le.trans (by norm_num), ?_⟩
    · rw [update_spent_eq]
      exact List.mem_map.mpr ⟨a, hmem, by simp⟩
    · exact Or.inl ⟨by norm_num, rfl⟩

/-- Witness for **C1**: a concrete database on which the scenario conjunct of
`reorg_transaction_spec` evaluates. -/
theorem reorg_transaction_spec_witness :
    (⟨[1], "did", [2], 100, 0, "c", "l", [3], none, "p"⟩ : AssetRow) ∈
        (DbState.mk [⟨[1], "did", [2], 100, 0, "c", "l", [3], none, "p"⟩] [] []).assets
    ∧ ({ (⟨[1], "did", [2], 100, 0, "c", "l", [3], none, "p"⟩ : AssetRow) with
          spent_height := 0 } ∈
        (reorg 120
          { (DbState.mk [⟨[1], "did", [2], 100, 0, "c", "l", [3], none, "p"⟩] [] []) with
            assets := update_asset_coin_spent_height [[1]] 150
              (DbState.mk [⟨[1], "did", [2], 100, 0, "c", "l", [3], none, "p"⟩] [] []).assets }).assets) :=
  ⟨by decide,
    reorg_transaction_spec.2.2.2
      (DbState.mk [⟨[1], "did", [2], 100, 0, "c", "l", [3], none, "p"⟩] [] [])
      ⟨[1], "did", [2], 100, 0, "c", "l", [3], none, "p"⟩ (by decide) rfl⟩

/-! C2 helper lemmas -/

lemma applyWrite_blocks (st : DbState) (w : DbWrite) : (applyWrite st w).blocks = st.blocks := by
  cases w <;> rfl

lemma applyWrites_blocks (ws : List DbWrite) : ∀ (st : DbState),
    (applyWrites st ws).blocks = st.blocks := by
  induction ws with
  | nil => intro st; rfl
  | cons w ws ih =>
    intro st
    show (applyWrites (applyWrite st w) ws).blocks = st.blocks
    rw [ih, applyWrite_blocks]

lemma latestTxBlockOf_applyWrites (st : DbState) (ws : List DbWrite) :
    latestTxBlockOf (applyWrites st ws) = latestTxBlockOf st := by
  unfold latestTxBlockOf
  rw [applyWrites_blocks]

lemma addressHeightOf_save (st : DbState) (ad : Bytes) (h : Nat) :
    addressHeightOf (applyWrite st (.saveAddressSyncHeight ad h)) ad = some h := by
  unfold addressHeightOf applyWrite
  have hnone : (st.address_sync.filter fun r => !decide (r.address = ad)).find?
      (fun r => decide (r.address = ad)) = none := by
    apply List.find?_eq_none.mpr
    intro r hr
    have := (List.mem_filter.mp hr).2
    simpa using this
  rw [List.find?_append, hnone]
  simp

/-- **C2.** For every address, `sync_user_assets` resumes from the persisted
address height + 1 (default 1) and targets the latest persisted tx-block
height, falling back to the live RPC tip when none is persisted; it performs
no write when resume ≥ target; on every completed non-no-op run it persists
sync height = target (even when zero coins matched — the height write happens
for every `handleCoin`, including one that never writes); and an immediately
repeated call on the resulting database performs zero writes, leaving the
asset set unchanged.  Quantified over every `handleCoin`. -/
theorem sync_user_assets_spec :
    ∀ (hc : CoinRecordJson → List DbWrite) (address : Bytes) (st : DbState) (env : SyncEnv),
      ((match addressHeightOf st address with | some h => h + 1 | none => 1) ≥
         (match latestTxBlockOf st with | some e => e | none => env.get_block_number) →
        sync_user_assets hc address (dbView st address) env = [])
    ∧ ((match addressHeightOf st address with | some h => h + 1 | none => 1) <
         (match latestTxBlockOf st with | some e => e | none => env.get_block_number) →
        addressHeightOf
            (applyWrites st (sync_user_assets hc address (dbView st address) env)) address =
          some (match latestTxBlockOf st with | some e => e | none => env.get_block_number))
    ∧ sync_user_assets hc address
        (dbView (applyWrites st (sync_user_assets hc address (dbView st address) env)) address)
        env = [] := by
  intro hc address st env
  set resume := (match addressHeightOf st address with | some h => h + 1 | none => 1) with hresume
  set target := (match latestTxBlockOf st with | some e => e | none => env.get_block_number)
    with htarget
  have hview1 : sync_user_assets hc address (dbView st address) env =
      if target ≤ resume then []
      else ((env.get_coin_records_by_hint resume (target + 1)).map hc).flatten
        ++ [.saveAddressSyncHeight address target] := by
    unfold sync_user_assets dbView
    rw [← hresume, ← htarget]
  have hnoop : target ≤ resume →
      sync_user_assets hc address (dbView st address) env = [] := by
    intro hle
    rw [hview1, if_pos hle]
  have hpersist : resume < target →
      addressHeightOf
          (applyWrites st (sync_user_assets hc address (dbView st address) env)) address =
        some target := by
    intro hlt
    rw [hview1, if_neg (Nat.not_le_of_lt hlt), applyWrites,
      List.foldl_append]
    exact addressHeightOf_save _ address target
  refine ⟨hnoop, hpersist, ?_⟩
  by_cases hle : target ≤ resume
  · rw [hnoop hle]
    show sync_user_assets hc address (dbView (applyWrites st []) address) env = []
    show sync_user_assets hc address (dbView st address) env = []
    exact hnoop hle
  · have hlt : resume < target := Nat.lt_of_not_le hle
    set st' := applyWrites st (sync_user_assets hc address (dbView st address) env) with hst'
    have h1 : addressHeightOf st' address = some target := hpersist hlt
    have h2 : latestTxBlockOf st' = latestTxBlockOf st := latestTxBlockOf_applyWrites st _
    unfold sync_user_assets dbView
    rw [h1, h2, ← htarget]
    simp

/-- Witness for **C2** at a concrete database, environment and handler. -/
theorem sync_user_assets_spec_witness :
    ((match addressHeightOf (DbState.mk [] [] [⟨[9], 4, 1, [8], true⟩]) [7] with
        | some h => h + 1 | none => 1) <
      (match latestTxBlockOf (DbState.mk [] [] [⟨[9], 4, 1, [8], true⟩]) with
        | some e => e | none => 0))
    ∧ addressHeightOf
        (applyWrites (DbState.mk [] [] [⟨[9], 4, 1, [8], true⟩])
          (sync_user_assets (fun _ => []) [7]
            (dbView (DbState.mk [] [] [⟨[9], 4, 1, [8], true⟩]) [7]) ⟨0, fun _ _ => []⟩))
        [7] = some 4
    ∧ sync_user_assets (fun _ => []) [7]
        (dbView
          (applyWrites (DbState.mk [] [] [⟨[9], 4, 1, [8], true⟩])
            (sync_user_assets (fun _ => []) [7]
              (dbView (DbState.mk [] [] [⟨[9], 4, 1, [8], true⟩]) [7]) ⟨0, fun _ _ => []⟩))
          [7]) ⟨0, fun _ _ => []⟩ = [] :=
  ⟨by decide,
    (sync_user_assets_spec (fun _ => []) [7] (DbState.mk [] [] [⟨[9], 4, 1, [8], true⟩])
      ⟨0, fun _ _ => []⟩).2.1 (by decide),
    (sync_user_assets_spec (fun _ => []) [7] (DbState.mk [] [] [⟨[9], 4, 1, [8], true⟩])
      ⟨0, fun _ _ => []⟩).2.2⟩

/-- **C7 counterexample.** The claim's scenario: `push_tx` fails with the
still-syncing condition twice and would succeed on a third attempt.  The
source's `retry_during_sync_number = 2` permits only two attempts in total,
so the loop exits and raises HTTP 400 `sendtx: timeout`; the third call is
never made and the caller does not receive the success status. -/
theorem create_transaction_two_sync_failures_then_success :
    create_transaction
        (fun n => if n < 2 then PushOutcome.errSyncing else PushOutcome.success "SUCCESS") =
      ⟨HttpResult.badRequestTimeout, 2, 2⟩ := by
  decide

/-- **C7 (amended).** `push_tx` still-syncing failures are retried after a
fixed 5-second delay up to the bound of two total attempts: a first-attempt
success returns the status at once with no delay; still-syncing once then
success returns the status on the second attempt after one delay; any other
`push_tx` error surfaces immediately as HTTP 400 with no retry and no delay;
two still-syncing failures exhaust the bound and surface HTTP 400
`sendtx: timeout`. -/
theorem create_transaction_retry_spec :
    ∀ (push : Nat → PushOutcome),
      (∀ s, push 0 = .success s → create_transaction push = ⟨.success s, 1, 0⟩)
    ∧ (∀ s, push 0 = .errSyncing → push 1 = .success s →
        create_transaction push = ⟨.success s, 2, 1⟩)
    ∧ (∀ m, push 0 = .errOther m → create_transaction push = ⟨.badRequest m, 1, 0⟩)
    ∧ (push 0 = .errSyncing → push 1 = .errSyncing →
        create_transaction push = ⟨.badRequestTimeout, 2, 2⟩) := by
  intro push
  refine ⟨?_, ?_, ?_, ?_⟩
  · intro s h0
    unfold create_transaction sendTxLoop
    rw [h0]
  · intro s h0 h1
    unfold create_transaction sendTxLoop
    rw [h0]
    unfold sendTxLoop
    rw [h1]
  · intro m h0
    unfold create_transaction sendTxLoop
    rw [h0]
  · intro h0 h1
    unfold create_transaction sendTxLoop
    rw [h0]
    unfold sendTxLoop
    rw [h1]
    rfl

/-- Witness for **C7 (amended)**: the retry-then-success schedule. -/
theorem create_transaction_retry_spec_witness :
    (fun n => if n = 0 then PushOutcome.errSyncing else PushOutcome.success "SUCCESS") 0 =
        PushOutcome.errSyncing
    ∧ (fun n => if n = 0 then PushOutcome.errSyncing else PushOutcome.success "SUCCESS") 1 =
        PushOutcome.success "SUCCESS"
    ∧ create_transaction
        (fun n => if n = 0 then PushOutcome.errSyncing else PushOutcome.success "SUCCESS") =
      ⟨HttpResult.success "SUCCESS", 2, 1⟩ :=
  ⟨rfl, rfl,
    (create_transaction_retry_spec
      (fun n => if n = 0 then PushOutcome.errSyncing else PushOutcome.success "SUCCESS")).2.1
      "SUCCESS" rfl rfl⟩

/-! C9 helper lemmas -/

lemma ofInt_one : Program.ofInt 1 = .atom [1] := by decide

lemma ofInt_two : Program.ofInt 2 = .atom [2] := by decide

lemma ofInt_four : Program.ofInt 4 = .atom [4] := by decide

lemma curryArgs_nil : Program.curryArgs [] = Program.atom [1] := by
  show Program.ofInt 1 = _
  exact ofInt_one

lemma curryArgs_cons (x : Program) (xs : List Program) :
    Program.curryArgs (x :: xs) =
      .pair (.atom [4]) (.pair (.pair (.atom [1]) x)
        (.pair (Program.curryArgs xs) (.atom []))) := by
  show Program.toList [Program.ofInt 4, .pair (Program.ofInt 1) x, Program.curryArgs xs] = _
  rw [ofInt_four, ofInt_one]
  rfl

lemma stripCoreArgs_curryArgs : ∀ (args acc : List Program),
    Program.stripCoreArgs (Program.curryArgs args) acc = (acc ++ args, Program.atom [1]) := by
  intro args
  induction args with
  | nil => intro acc; rw [curryArgs_nil]; simp [Program.stripCoreArgs]
  | cons x xs ih =>
    intro acc
    rw [curryArgs_cons]
    show Program.stripCoreArgs (Program.curryArgs xs) (acc ++ [x]) = _
    rw [ih (acc ++ [x])]
    simp

lemma matchFunPattern_curry (m : Program) (args : List Program) :
    Program.matchFunPattern (Program.curry m args) = some (m, Program.curryArgs args) := by
  show Program.matchFunPattern
    (Program.toList [Program.ofInt 2, .pair (Program.ofInt 1) m, Program.curryArgs args]) = _
  rw [ofInt_two, ofInt_one]
  rfl

lemma uncurry_curry (m : Program) (args : List Program) :
    Program.uncurry (Program.curry m args) = .ok (m, Program.toList args) := by
  unfold Program.uncurry Program.uncurryRaw
  rw [matchFunPattern_curry]
  dsimp only
  rw [stripCoreArgs_curryArgs]
  dsimp only
  norm_num [Program.asIntE, int_from_bytes, bytesToNatBE]

/-- **C9 counterexample.** The program `(a (q . ()) (8 . 9))` does not match
the curry pattern — its core `(8 . 9)` is neither a curry wrapper nor the
terminal `1` — yet `Program.uncurry` raises a `TypeError` (from
`core.as_int()` on a pair inside `clvm_tools.curry.uncurry`) instead of
returning the no-match sentinel. -/
theorem uncurry_pair_core_raises :
    Program.uncurry
        (.pair (.atom [2]) (.pair (.pair (.atom [1]) (.atom []))
          (.pair (.pair (.atom [8]) (.atom [9])) (.atom [])))) =
      .error .typeErr := rfl

/-- **C9 (amended).** `uncurry (curry mod args)` returns exactly
`(mod, args)` for every `mod` and argument list; `uncurry` returns the
sentinel `(self, empty atom)` without error on every atom, on every program
not matching the application pattern `(a (q . f) core)`, and on every
matching program whose residual core after stripping the curry wrappers is an
atom other than `1`; but on a matching program whose residual core is a pair
it raises a `TypeError` instead of returning the sentinel. -/
theorem uncurry_curry_spec :
    (∀ (m : Program) (args : List Program),
      Program.uncurry (Program.curry m args) = .ok (m, Program.toList args))
  ∧ (∀ (a : Bytes), Program.uncurry (.atom a) = .ok (.atom a, .atom []))
  ∧ (∀ (p : Program), Program.matchFunPattern p = none →
      Program.uncurry p = .ok (p, .atom []))
  ∧ (∀ (p f core : Program) (args : List Program) (res : Program),
      Program.matchFunPattern p = some (f, core) →
      Program.stripCoreArgs core [] = (args, res) → res.listp = true →
      Program.uncurry p = .error .typeErr)
  ∧ (∀ (p f core : Program) (args : List Program) (a : Bytes),
      Program.matchFunPattern p = some (f, core) →
      Program.stripCoreArgs core [] = (args, .atom a) → int_from_bytes a ≠ 1 →
      Program.uncurry p = .ok (p, .atom [])) := by
  refine ⟨uncurry_curry, ?_, ?_, ?_, ?_⟩
  · intro a; rfl
  · intro p hp
    unfold Program.uncurry Program.uncurryRaw
    rw [hp]
  · intro p f core args res hp hstrip hres
    unfold Program.uncurry Program.uncurryRaw
    rw [hp]
    dsimp only
    rw [hstrip]
    cases res with
    | atom a => simp [Program.listp] at hres
    | pair l r => rfl
  · intro p f core args a hp hstrip hne
    unfold Program.uncurry Program.uncurryRaw
    rw [hp]
    dsimp only
    rw [hstrip]
    simp [Program.asIntE, hne]

/-- Witness for **C9 (amended)**: a concrete curry round trip, the atom
sentinel, and the residual-pair error at `(a (q . ()) (c (q . ()) (8 . 9)))`. -/
theorem uncurry_curry_spec_witness :
    Program.uncurry (Program.curry (.atom [7]) [.atom [1, 2], .atom []]) =
        .ok (.atom [7], Program.toList [.atom [1, 2], .atom []])
    ∧ Program.uncurry (.atom [5]) = .ok (.atom [5], .atom [])
    ∧ Program.matchFunPattern
          (.pair (.atom [2]) (.pair (.pair (.atom [1]) (.atom []))
            (.pair (.pair (.atom [4]) (.pair (.pair (.atom [1]) (.atom []))
              (.pair (.pair (.atom [8]) (.atom [9])) (.atom [])))) (.atom [])))) =
        some (.atom [],
          .pair (.atom [4]) (.pair (.pair (.atom [1]) (.atom []))
            (.pair (.pair (.atom [8]) (.atom [9])) (.atom []))))
    ∧ Program.uncurry
          (.pair (.atom [2]) (.pair (.pair (.atom [1]) (.atom []))
            (.pair (.pair (.atom [4]) (.pair (.pair (.atom [1]) (.atom []))
              (.pair (.pair (.atom [8]) (.atom [9])) (.atom [])))) (.atom [])))) =
        .error .typeErr :=
  ⟨uncurry_curry_spec.1 (.atom [7]) [.atom [1, 2], .atom []],
    uncurry_curry_spec.2.1 [5],
    rfl,
    uncurry_curry_spec.2.2.2.1
      (.pair (.atom [2]) (.pair (.pair (.atom [1]) (.atom []))
        (.pair (.pair (.atom [4]) (.pair (.pair (.atom [1]) (.atom []))
          (.pair (.pair (.atom [8]) (.atom [9])) (.atom [])))) (.atom []))))
      (.atom [])
      (.pair (.atom [4]) (.pair (.pair (.atom [1]) (.atom []))
        (.pair (.pair (.atom [8]) (.atom [9])) (.atom []))))
      [.atom []] (.pair (.atom [8]) (.atom [9])) rfl rfl rfl⟩

/-- The two int encoders are the same function: the body of the local
`int_to_bytes` is a verbatim copy of `clvm.casts.int_to_bytes`. -/
lemma int_to_bytes_eq_clvm : int_to_bytes = clvm_int_to_bytes := rfl

/-- **C10.** For every coin record with hex-encoded parent id and puzzle hash
and a non-negative integer amount, the standalone `coin_name` (local
`int_to_bytes`) computes the same coin id digest as
`Coin.from_json_dict(record).name()` (clvm `int_to_bytes`), for every hash
function `H` in place of sha256 — so the Watcher's removal ids key exactly
the Asset rows the Sync Engine writes. -/
theorem coin_name_refines_Coin_name :
    ∀ (H : Bytes → Bytes) (cj : CoinJson), 0 ≤ cj.amount →
      coin_name H cj = (Coin.from_json_dict cj).map (Coin.name H) := by
  intro H cj _h
  unfold coin_name Coin.from_json_dict Coin.name
  cases hp : hexstr_to_bytes cj.parent_coin_info <;>
    cases hq : hexstr_to_bytes cj.puzzle_hash <;>
      simp [hp, hq, int_to_bytes_eq_clvm]

/-- Witness for **C10** at a concrete record. -/
theorem coin_name_refines_Coin_name_witness :
    (0 : Int) ≤ 5
    ∧ coin_name (fun l => l) ⟨"0a", "ff", 5⟩ =
        (Coin.from_json_dict ⟨"0a", "ff", 5⟩).map (Coin.name (fun l => l))
    ∧ coin_name (fun l => l) ⟨"0a", "ff", 5⟩ = some ([10] ++ [255] ++ [5]) :=
  ⟨by decide, coin_name_refines_Coin_name (fun l => l) ⟨"0a", "ff", 5⟩ (by decide), by rfl⟩

/-! C4 helper lemmas.  Except-monad reduction lemmas shared by several
claims. -/

@[simp] lemma eBind_ok {ε α β : Type} (x : α) (f : α → Except ε β) :
    (Except.ok x : Except ε α) >>= f = f x := rfl

@[simp] lemma eBind_error {ε α β : Type} (e : ε) (f : α → Except ε β) :
    (Except.error e : Except ε α) >>= f = Except.error e := rfl

@[simp] lemma eMap_ok {ε α β : Type} (g : α → β) (x : α) :
    g <$> (Except.ok x : Except ε α) = Except.ok (g x) := rfl

@[simp] lemma eMap_error {ε α β : Type} (g : α → β) (e : ε) :
    g <$> (Except.error e : Except ε α) = Except.error e := rfl

@[simp] lemma ePure {ε α : Type} (x : α) : (pure x : Except ε α) = Except.ok x := rfl

lemma items_toList : ∀ (ps : List Program), (Program.toList ps).items = ps := by
  intro ps
  induction ps with
  | nil => rfl
  | cons p ps ih => simp [Program.toList, Program.items, ih]

/-- A three-field condition `(code destination flag)` of atoms, used to build
the condition lists quantified over in the C4 theorem. -/
structure CondTriple where
  codeAtom : Bytes
  dest : Bytes
  flagAtom : Bytes
deriving DecidableEq, Repr

def condProg (c : CondTriple) : Program :=
  Program.toList [.atom c.codeAtom, .atom c.dest, .atom c.flagAtom]

/-- The source's create-coin test: code 51 with trailing flag 1. -/
def isCreateCoinOne (c : CondTriple) : Bool :=
  decide (int_from_bytes c.codeAtom = 51) && decide (int_from_bytes c.flagAtom = 1)

lemma scanCondition_condProg (um : Program → Program → Except PyErr Program)
    (m : Program) (pfd : Option Bytes) (c : CondTriple)
    (h24 : int_from_bytes c.codeAtom ≠ -24) :
    scanCondition um (m, pfd) (condProg c) =
      .ok (m, if isCreateCoinOne c then
          (match pfd with | some d => some d | none => some c.dest)
        else pfd) := by
  unfold scanCondition condProg
  by_cases h51 : int_from_bytes c.codeAtom = 51
  · by_cases hflag : int_from_bytes c.flagAtom = 1
    · cases pfd <;>
        simp [Program.toList, Program.listLen, Program.items, Program.firstE,
          Program.restE, Program.asIntE, Program.asAtom, h24, h51, hflag,
          isCreateCoinOne]
    · cases pfd <;>
        simp [Program.toList, Program.listLen, Program.items, Program.firstE,
          Program.restE, Program.asIntE, Program.asAtom, h24, h51, hflag,
          isCreateCoinOne]
  · cases pfd <;>
      simp [Program.toList, Program.listLen, Program.items, Program.firstE,
        Program.restE, Program.asIntE, Program.asAtom, h24, h51,
        isCreateCoinOne]

lemma scan_fold (um : Program → Program → Except PyErr Program) (m : Program) :
    ∀ (cs : List CondTriple) (pfd : Option Bytes),
    (∀ c ∈ cs, int_from_bytes c.codeAtom ≠ -24) →
    List.foldlM (scanCondition um) (m, pfd) (cs.map condProg) =
      .ok (m, match pfd with
        | some d => some d
        | none => (cs.find? isCreateCoinOne).map (·.dest)) := by
  intro cs
  induction cs with
  | nil =>
    intro pfd _
    cases pfd <;> simp [List.foldlM]
  | cons c cs ih =>
    intro pfd hall
    have hc : int_from_bytes c.codeAtom ≠ -24 := hall c (List.mem_cons_self c cs)
    have hcs : ∀ x ∈ cs, int_from_bytes x.codeAtom ≠ -24 :=
      fun x hx => hall x (List.mem_cons_of_mem c hx)
    rw [List.map_cons, List.foldlM_cons, scanCondition_condProg um m pfd c hc]
    show List.foldlM (scanCondition um) _ (cs.map condProg) = _
    cases pfd with
    | some d =>
      have hstep : (if isCreateCoinOne c then
          (match (some d : Option Bytes) with | some d => some d | none => some c.dest)
        else some d) = some d := by
        cases hcc : isCreateCoinOne c <;> simp
      rw [hstep, ih (some d) hcs]
    | none =>
      by_cases hcc : isCreateCoinOne c
      · have hstep : (if isCreateCoinOne c then
            (match (none : Option Bytes) with | some d => some d | none => some c.dest)
          else none) = some c.dest := by simp [hcc]
        rw [hstep, ih (some c.dest) hcs]
        rw [List.find?_cons_of_pos _ hcc]
        rfl
      · have hstep : (if isCreateCoinOne c then
            (match (none : Option Bytes) with | some d => some d | none => some c.dest)
          else none) = none := by simp [hcc]
        rw [hstep, ih none hcs]
        rw [List.find?_cons_of_neg _ (by simp [hcc])]

/-- **C4 counterexample.** A condition list containing exactly one create-coin
condition with code 51 and trailing flag 1 — with the empty atom as its
destination — on which `get_metadata_and_phs` aborts with the propagated
`AssertionError` (`assert puzhash_for_derivation` is false for `b""`) instead
of returning the captured `p2_puzzle_hash` of that first matching
condition. -/
theorem get_metadata_and_phs_empty_dest_aborts :
    int_from_bytes [51] = 51 ∧ int_from_bytes [1] = 1
    ∧ get_metadata_and_phs (fun m _ => .ok m) (.atom [])
        (Program.toList [Program.toList [.atom [51], .atom [], .atom [1]]]) =
      .error .assertionErr := ⟨rfl, rfl, rfl⟩

/-- **C4 (amended).** Over every emitted condition list of three-atom
conditions `(code dest flag)` none of which carries the metadata-update code
−24 (and for every `update_metadata` implementation): the scan takes the new
`p2_puzzle_hash` from the first create-coin condition (code 51, trailing flag
1), ignoring later duplicates, and succeeds provided that first destination
is a non-empty atom; when no such create-coin condition exists — or when the
first one's destination is the empty atom — the matcher aborts that spend
with a propagated fatal `AssertionError` rather than skipping the coin. -/
theorem get_metadata_and_phs_spec :
    ∀ (um : Program → Program → Except PyErr Program) (m0 : Program)
      (cs : List CondTriple),
    (∀ c ∈ cs, int_from_bytes c.codeAtom ≠ -24) →
    get_metadata_and_phs um m0 (Program.toList (cs.map condProg)) =
      (match cs.find? isCreateCoinOne with
       | none => .error .assertionErr
       | some c => if c.dest = [] then .error .assertionErr else .ok (m0, c.dest)) := by
  intro um m0 cs hall
  unfold get_metadata_and_phs
  rw [items_toList, scan_fold um m0 cs none hall]
  simp only [eBind_ok]
  cases hfind : cs.find? isCreateCoinOne with
  | none => rfl
  | some c =>
    by_cases hd : c.dest = []
    · simp [hd]
    · simp [hd]

/-- Witness for **C4 (amended)**: two create-coin conditions; the first one's
destination wins and the duplicate is ignored. -/
theorem get_metadata_and_phs_spec_witness :
    (∀ c ∈ [CondTriple.mk [51] [8, 8] [1], CondTriple.mk [51] [9, 9] [1]],
      int_from_bytes c.codeAtom ≠ -24)
    ∧ get_metadata_and_phs (fun m _ => .ok m) (.atom [])
        (Program.toList ([CondTriple.mk [51] [8, 8] [1],
          CondTriple.mk [51] [9, 9] [1]].map condProg)) =
      .ok (.atom [], [8, 8]) :=
  ⟨by decide,
    (get_metadata_and_phs_spec (fun m _ => .ok m) (.atom [])
      [CondTriple.mk [51] [8, 8] [1], CondTriple.mk [51] [9, 9] [1]]
      (by decide)).trans rfl⟩

/-! C5 helper lemmas -/

lemma foldl_findOddStep_error (l : List CoinRecordJson) (e : SingletonErr) :
    l.foldl findOddStep (.error e) = .error e := by
  induction l with
  | nil => rfl
  | cons cr l ih => simpa [findOddStep] using ih

lemma foldl_findOddStep_some (l : List CoinRecordJson) (x : CoinRecordJson) :
    1 ≤ countOddAmount l →
    l.foldl findOddStep (.ok (some x)) = .error .moreThanOneOdd := by
  induction l with
  | nil => intro h; simp [countOddAmount] at h
  | cons cr l ih =>
    intro h
    by_cases hodd : cr.coin.amount.emod 2 = 1
    · show List.foldl findOddStep (findOddStep (.ok (some x)) cr) l = _
      rw [show findOddStep (.ok (some x)) cr = .error .moreThanOneOdd by
        simp [findOddStep, hodd]]
      exact foldl_findOddStep_error l _
    · show List.foldl findOddStep (findOddStep (.ok (some x)) cr) l = _
      rw [show findOddStep (.ok (some x)) cr = .ok (some x) by simp [findOddStep, hodd]]
      apply ih
      simpa [countOddAmount, List.filter, hodd] using h

lemma findOddCoin_two (l : List CoinRecordJson) :
    2 ≤ countOddAmount l → findOddCoin l = .error .moreThanOneOdd := by
  unfold findOddCoin
  induction l with
  | nil => intro h; simp [countOddAmount] at h
  | cons cr l ih =>
    intro h
    by_cases hodd : cr.coin.amount.emod 2 = 1
    · show List.foldl findOddStep (findOddStep (.ok none) cr) l = _
      rw [show findOddStep (.ok none) cr = .ok (some cr) by simp [findOddStep, hodd]]
      apply foldl_findOddStep_some
      have : countOddAmount (cr :: l) = countOddAmount l + 1 := by
        simp [countOddAmount, List.filter, hodd]
      omega
    · show List.foldl findOddStep (findOddStep (.ok none) cr) l = _
      rw [show findOddStep (.ok none) cr = .ok none by simp [findOddStep, hodd]]
      apply ih
      have : countOddAmount (cr :: l) = countOddAmount l := by
        simp [countOddAmount, List.filter, hodd]
      omega

lemma findOddCoin_zero (l : List CoinRecordJson) :
    countOddAmount l = 0 → findOddCoin l = .ok none := by
  unfold findOddCoin
  induction l with
  | nil => intro _; rfl
  | cons cr l ih =>
    intro h
    by_cases hodd : cr.coin.amount.emod 2 = 1
    · exfalso
      have : countOddAmount (cr :: l) = countOddAmount l + 1 := by
        simp [countOddAmount, List.filter, hodd]
      omega
    · show List.foldl findOddStep (findOddStep (.ok none) cr) l = _
      rw [show findOddStep (.ok none) cr = .ok none by simp [findOddStep, hodd]]
      apply ih
      have : countOddAmount (cr :: l) = countOddAmount l := by
        simp [countOddAmount, List.filter, hodd]
      omega

lemma find?_filter_not_self (table : List SingletonSpendRow) (sid : Bytes) :
    (table.filter fun r => !decide (r.singleton_id = sid)).find?
      (fun r => decide (r.singleton_id = sid)) = none :=
  List.find?_eq_none.mpr fun r hr => by simpa using (List.mem_filter.mp hr).2

/-- **C5.** Whenever a query for the cursor coin's children returns more than
one odd-amount coin, `get_and_sync_singleton` raises the fatal
ambiguous-singleton error (`more than one odd coin`) — both on a fresh
resolution and on one resumed from a cached cursor; whenever a cached cursor
yields no odd-amount child at all (its range query returns none, or its
expected spent index is 0), the cursor row is deleted and resolution restarts
from the launcher id with no cursor; and a fresh resolution with no cursor
and no odd child fails with the `This is not a singleton` error instead. -/
theorem get_and_sync_singleton_spec :
    ∀ (H : Bytes → Bytes) (env : SingletonEnv) (fuel : Nat) (sid : Bytes),
      (∀ (table : List SingletonSpendRow),
        table.find? (fun r => decide (r.singleton_id = sid)) = none →
        2 ≤ countOddAmount (env.by_parent_ids sid none none) →
        get_and_sync_singleton H env (fuel + 1) table sid = .error .moreThanOneOdd)
    ∧ (∀ (table : List SingletonSpendRow) (row : SingletonSpendRow),
        table.find? (fun r => decide (r.singleton_id = sid)) = some row →
        0 < row.spent_block_index →
        2 ≤ countOddAmount (env.by_parent_ids row.coin_id (some row.spent_block_index)
          (some (row.spent_block_index + 1))) →
        get_and_sync_singleton H env (fuel + 1) table sid = .error .moreThanOneOdd)
    ∧ (∀ (table : List SingletonSpendRow) (row : SingletonSpendRow),
        table.find? (fun r => decide (r.singleton_id = sid)) = some row →
        (row.spent_block_index = 0 ∨
          countOddAmount (env.by_parent_ids row.coin_id (some row.spent_block_index)
            (some (row.spent_block_index + 1))) = 0) →
        get_and_sync_singleton H env (fuel + 1) table sid =
          get_and_sync_singleton H env fuel
            (table.filter fun r => !decide (r.singleton_id = sid)) sid
        ∧ (table.filter fun r => !decide (r.singleton_id = sid)).find?
            (fun r => decide (r.singleton_id = sid)) = none)
    ∧ (∀ (table : List SingletonSpendRow),
        table.find? (fun r => decide (r.singleton_id = sid)) = none →
        countOddAmount (env.by_parent_ids sid none none) = 0 →
        get_and_sync_singleton H env (fuel + 1) table sid = .error .notASingleton) := by
  intro H env fuel sid
  have hwalk_none : ∀ fid, singletonWalk H env (fuel + 1) fid none =
      (match findOddCoin (env.by_parent_ids fid none none) with
       | .error e => .error e
       | .ok none => .ok none
       | .ok (some cr) =>
         if 0 < cr.spent_block_index then
           singletonWalk H env fuel (cr.coin.name H) (some cr.spent_block_index)
         else .ok (some cr)) := by
    intro fid
    rw [singletonWalk]
    rfl
  have hwalk_pos : ∀ fid k, 0 < k → singletonWalk H env (fuel + 1) fid (some k) =
      (match findOddCoin (env.by_parent_ids fid (some k) (some (k + 1))) with
       | .error e => .error e
       | .ok none => .ok none
       | .ok (some cr) =>
         if 0 < cr.spent_block_index then
           singletonWalk H env fuel (cr.coin.name H) (some cr.spent_block_index)
         else .ok (some cr)) := by
    intro fid k hk
    rw [singletonWalk]
    have hk0 : k ≠ 0 := Nat.pos_iff_ne_zero.mp hk
    simp [hk, hk0]
  have hwalk_zero : ∀ fid, singletonWalk H env (fuel + 1) fid (some 0) = .ok none := by
    intro fid
    rw [singletonWalk]
    simp
  refine ⟨?_, ?_, ?_, ?_⟩
  · intro table hfind hcount
    rw [get_and_sync_singleton]
    simp only [hfind]
    rw [hwalk_none sid, findOddCoin_two _ hcount]
  · intro table row hfind hpos hcount
    rw [get_and_sync_singleton]
    simp only [hfind]
    rw [hwalk_pos row.coin_id row.spent_block_index hpos, findOddCoin_two _ hcount]
  · intro table row hfind hstale
    constructor
    · rw [get_and_sync_singleton]
      simp only [hfind]
      rcases hstale with h0 | hc
      · rw [h0, hwalk_zero row.coin_id]
      · by_cases h0 : row.spent_block_index = 0
        · rw [h0, hwalk_zero row.coin_id]
        · rw [hwalk_pos row.coin_id row.spent_block_index (Nat.pos_of_ne_zero h0),
            findOddCoin_zero _ hc]
    · exact find?_filter_not_self table sid
  · intro table hfind hcount
    rw [get_and_sync_singleton]
    simp only [hfind]
    rw [hwalk_none sid, findOddCoin_zero _ hcount]

/-- Witness for **C5**: fresh resolution with no children errors as
not-a-singleton, and one with two odd children errors as ambiguous. -/
theorem get_and_sync_singleton_spec_witness :
    get_and_sync_singleton (fun l => l)
        ⟨fun _ _ _ => [], fun _ _ => ⟨⟨[], [], 0⟩, .atom [], .atom []⟩⟩ 1 [] [3] =
      .error .notASingleton
    ∧ get_and_sync_singleton (fun l => l)
        ⟨fun _ _ _ => [⟨⟨[1], [1], 1⟩, 5, 0⟩, ⟨⟨[2], [2], 3⟩, 5, 0⟩],
          fun _ _ => ⟨⟨[], [], 0⟩, .atom [], .atom []⟩⟩ 1 [] [3] =
      .error .moreThanOneOdd :=
  ⟨(get_and_sync_singleton_spec (fun l => l)
      ⟨fun _ _ _ => [], fun _ _ => ⟨⟨[], [], 0⟩, .atom [], .atom []⟩⟩ 0 [3]).2.2.2
      [] rfl rfl,
    (get_and_sync_singleton_spec (fun l => l)
      ⟨fun _ _ _ => [⟨⟨[1], [1], 1⟩, 5, 0⟩, ⟨⟨[2], [2], 3⟩, 5, 0⟩],
        fun _ _ => ⟨⟨[], [], 0⟩, .atom [], .atom []⟩⟩ 0 [3]).1
      [] rfl (by decide)⟩

/-- **C6.** Claim: on a prev-hash mismatch the Watcher scans backward to the
fork point, invokes `reorg(fork_point)` and resumes from `fork_point + 1`.
What the source actually does: the very first backward-scan step calls
`get_block_by_height(check_height)` without the required `db` argument, and
`Watcher.reorg` calls `reorg_db(block_height)` without `db`, so the whole
reorg branch raises `TypeError` for every state that enters it — the fork
point is never found, `reorg` never runs and processing never resumes. -/
theorem watcher_reorg_branch_raises :
    ∀ (H : Bytes → Bytes) (env : WatcherEnv) (db : DbState) (pb : BlockRow)
      (start_height : Nat),
      pb.hash ≠ (env.get_block_record_by_height start_height).prev_hash →
      watcherIteration H env db (some pb) start_height = .error .typeErr := by
  intro H env db pb sh hne
  unfold watcherIteration
  dsimp only
  rw [if_pos hne]
  cases hn : sh - 1 with
  | zero => simp [forkScan, watcher_reorg]
  | succ k => simp [forkScan, watcher_get_block_by_height]

/-- Witness for **C6**: a concrete mismatching block. -/
theorem watcher_reorg_branch_raises_witness :
    ([2] : Bytes) ≠
        ((WatcherEnv.mk (fun _ => ⟨[1], 5, 0, [9], false⟩)
          (fun _ => [])).get_block_record_by_height 5).prev_hash
    ∧ watcherIteration (fun l => l)
        (WatcherEnv.mk (fun _ => ⟨[1], 5, 0, [9], false⟩) (fun _ => []))
        ⟨[], [], []⟩ (some ⟨[2], 4, 0, [0], false⟩) 5 = .error .typeErr :=
  ⟨by decide,
    watcher_reorg_branch_raises (fun l => l)
      (WatcherEnv.mk (fun _ => ⟨[1], 5, 0, [9], false⟩) (fun _ => []))
      ⟨[], [], []⟩ ⟨[2], 4, 0, [0], false⟩ 5 (by decide)⟩

/-! C3: a concrete DID spend whose coin puzzle hash matches the
recovery-cleared re-derivation (and not the current-config one). -/

def didBugH : Bytes → Bytes := fun l => 9 :: l

def didBugMods : DidMods := ⟨.atom [0xAA], .atom [0xBB], .atom [0xCC]⟩

def didBugStruct : Program := .pair (.atom [1]) (.pair (.atom [7, 7]) (.atom [2]))

def didBugInner : Program :=
  Program.curry didBugMods.didInner
    [.atom [3], .atom [5], .atom [9], didBugStruct, .atom []]

def didBugPuzzle : Program := Program.curry didBugMods.singletonTop [didBugStruct, didBugInner]

def didBugAddress : Bytes := [4, 4]

/-- The full puzzle hash re-derived under the cleared recovery config
(empty-list hash, `num_verification = 0`). -/
def didBugClearedHash : Bytes :=
  to_full_pzh didBugH didBugMods
    (get_did_inner_puzzle_hash didBugH didBugMods didBugAddress
      (treeHash didBugH [] Program.nil) (.atom []) didBugStruct (.atom [])) [7, 7]

/-- The full puzzle hash re-derived under the current recovery config. -/
def didBugCurrentHash : Bytes :=
  to_full_pzh didBugH didBugMods
    (get_did_inner_puzzle_hash didBugH didBugMods didBugAddress [5] (.atom [9])
      didBugStruct (.atom [])) [7, 7]

def didBugCoin : Coin := ⟨[1], didBugClearedHash, 1⟩

def didBugSpend : CoinSpendJson :=
  ⟨⟨[2], [2], 3⟩, didBugPuzzle, Program.toList [.atom [], .atom [], .atom []]⟩

/-- **C3.** Claim: the DID matcher accepts a coin whose puzzle hash matches
the re-derivation under either the current or the cleared recovery config,
and in every other case returns no-match rather than an error.  The source
cannot do this: on the recovery-cleared path it re-binds `num_verification`
to the Python int `0` and then evaluates `num_verification.as_int()` while
building the returned record, raising `AttributeError` — so exactly the
spend the cleared-config check was written to accept crashes the matcher.
Evidence: a concrete spend whose coin hash equals the cleared re-derivation
(and not the current one) on which `get_did_info_from_coin_spend` raises. -/
theorem did_recovery_cleared_path_raises :
    didBugCoin.puzzle_hash = didBugClearedHash
    ∧ didBugClearedHash ≠ didBugCurrentHash
    ∧ get_did_info_from_coin_spend didBugH didBugMods didBugCoin didBugSpend didBugAddress =
        .error .attributeErr := by
  set_option maxRecDepth 4096 in
  exact ⟨rfl, by decide, by rfl⟩

/-! C8 helper lemmas -/

lemma clearOnes_b1 : ∀ s, s < 0x40 → clearOnes (0x80 ||| s) = (1, s) := by decide
lemma clearOnes_b2 : ∀ k, k < 0x20 → clearOnes (0xC0 ||| k) = (2, k) := by decide
lemma clearOnes_b3 : ∀ k, k < 0x10 → clearOnes (0xE0 ||| k) = (3, k) := by decide
lemma clearOnes_b4 : ∀ k, k < 8 → clearOnes (0xF0 ||| k) = (4, k) := by decide
lemma clearOnes_b5 : ∀ k, k < 4 → clearOnes (0xF8 ||| k) = (5, k) := by decide

lemma tag_b1 : ∀ s, s < 0x40 → s ≠ 0 →
    0x80 ||| s ≠ 0xFF ∧ 0x80 ||| s ≠ 0x80 ∧ ¬(0x80 ||| s ≤ 0x7F) := by decide
lemma tag_b2 : ∀ k, k < 0x20 →
    0xC0 ||| k ≠ 0xFF ∧ 0xC0 ||| k ≠ 0x80 ∧ ¬(0xC0 ||| k ≤ 0x7F) := by decide
lemma tag_b3 : ∀ k, k < 0x10 →
    0xE0 ||| k ≠ 0xFF ∧ 0xE0 ||| k ≠ 0x80 ∧ ¬(0xE0 ||| k ≤ 0x7F) := by decide
lemma tag_b4 : ∀ k, k < 8 →
    0xF0 ||| k ≠ 0xFF ∧ 0xF0 ||| k ≠ 0x80 ∧ ¬(0xF0 ||| k ≤ 0x7F) := by decide
lemma tag_b5 : ∀ k, k < 4 →
    0xF8 ||| k ≠ 0xFF ∧ 0xF8 ||| k ≠ 0x80 ∧ ¬(0xF8 ||| k ≤ 0x7F) := by decide

lemma readN_exact (xs ys : Bytes) : readN xs.length (xs ++ ys) = some (xs, ys) := by
  simp [readN, List.take_left, List.drop_left]

lemma parse_tag_atom (f t cnt bres : Nat) (szExtra a rest : Bytes)
    (ht1 : t ≠ 0xFF) (ht2 : t ≠ 0x80) (ht3 : ¬ t ≤ 0x7F)
    (hclear : clearOnes t = (cnt, bres))
    (hlen : szExtra.length = cnt - 1)
    (hsize : bytesToNatBE (bres :: szExtra) = a.length)
    (hbound : a.length < 0x400000000) :
    parseSE (f + 1) (t :: (szExtra ++ (a ++ rest))) = some (.atom a, rest) := by
  conv_lhs => rw [parseSE]
  rw [if_neg ht1, if_neg ht2, if_neg ht3]
  simp only [hclear, ← hlen, readN_exact szExtra (a ++ rest)]
  simp only [hsize]
  rw [if_neg (by omega : ¬ 0x400000000 ≤ a.length)]
  rw [show a.length = a.length from rfl, readN_exact a rest]

lemma parse_serializeAtom (a bs : Bytes) (hser : serializeAtom a = some bs)
    (f : Nat) (rest : Bytes) : parseSE (f + 1) (bs ++ rest) = some (.atom a, rest) := by
  unfold serializeAtom at hser
  by_cases ha : a = []
  · subst ha
    rw [if_pos rfl] at hser
    have hbs : bs = [0x80] := by simpa using hser.symm
    subst hbs
    simp only [List.cons_append, List.nil_append]
    conv_lhs => rw [parseSE]
    norm_num
  · rw [if_neg ha] at hser
    by_cases hone : a.length = 1 ∧ a.headI ≤ 0x7F
    · rw [if_pos hone] at hser
      obtain ⟨hlen1, hhead⟩ := hone
      obtain ⟨b, rfl⟩ : ∃ b, a = [b] := by
        cases a with
        | nil => simp at hlen1
        | cons x xs =>
          cases xs with
          | nil => exact ⟨x, rfl⟩
          | cons y ys => simp at hlen1
      have hbs : bs = [b] := by simpa using hser.symm
      subst hbs
      have hb : b ≤ 0x7F := by simpa using hhead
      simp only [List.cons_append, List.nil_append]
      conv_lhs => rw [parseSE]
      rw [if_neg (by omega : b ≠ 0xFF), if_neg (by omega : b ≠ 0x80), if_pos hb]
    · rw [if_neg hone] at hser
      have hn1 : a.length ≠ 0 := fun h => ha (List.length_eq_zero.mp h)
      unfold atomSizeBlob at hser
      by_cases h1 : a.length < 0x40
      · rw [if_pos h1] at hser
        have hbs : bs = [0x80 ||| a.length] ++ a := by
          simpa using hser.symm
        subst hbs
        have hprops := tag_b1 a.length h1 hn1
        have := parse_tag_atom f (0x80 ||| a.length) 1 a.length [] a rest
          hprops.1 hprops.2.1 hprops.2.2 (clearOnes_b1 a.length h1) rfl
          (by simp [bytesToNatBE]) (by omega)
        simpa using this
      · rw [if_neg h1] at hser
        by_cases h2 : a.length < 0x2000
        · rw [if_pos h2] at hser
          have hbs : bs = [0xC0 ||| (a.length / 256), a.length % 256] ++ a := by
            simpa using hser.symm
          subst hbs
          have hk : a.length / 256 < 0x20 := by omega
          have hprops := tag_b2 (a.length / 256) hk
          have := parse_tag_atom f (0xC0 ||| (a.length / 256)) 2 (a.length / 256)
            [a.length % 256] a rest hprops.1 hprops.2.1 hprops.2.2
            (clearOnes_b2 (a.length / 256) hk) rfl
            (by simp [bytesToNatBE]; omega) (by omega)
          simpa using this
        · rw [if_neg h2] at hser
          by_cases h3 : a.length < 0x100000
          · rw [if_pos h3] at hser
            have hbs : bs = [0xE0 ||| (a.length / 65536), (a.length / 256) % 256,
                a.length % 256] ++ a := by
              simpa using hser.symm
            subst hbs
            have hk : a.length / 65536 < 0x10 := by omega
            have hprops := tag_b3 (a.length / 65536) hk
            have := parse_tag_atom f (0xE0 ||| (a.length / 65536)) 3 (a.length / 65536)
              [(a.length / 256) % 256, a.length % 256] a rest
              hprops.1 hprops.2.1 hprops.2.2
              (clearOnes_b3 (a.length / 65536) hk) rfl
              (by simp [bytesToNatBE]; omega) (by omega)
            simpa using this
          · rw [if_neg h3] at hser
            by_cases h4 : a.length < 0x8000000
            · rw [if_pos h4] at hser
              have hbs : bs = [0xF0 ||| (a.length / 16777216), (a.length / 65536) % 256,
                  (a.length / 256) % 256, a.length % 256] ++ a := by
                simpa using hser.symm
              subst hbs
              have hk : a.length / 16777216 < 8 := by omega
              have hprops := tag_b4 (a.length / 16777216) hk
              have := parse_tag_atom f (0xF0 ||| (a.length / 16777216)) 4
                (a.length / 16777216)
                [(a.length / 65536) % 256, (a.length / 256) % 256, a.length % 256] a rest
                hprops.1 hprops.2.1 hprops.2.2
                (clearOnes_b4 (a.length / 16777216) hk) rfl
                (by simp [bytesToNatBE]; omega) (by omega)
              simpa using this
            · rw [if_neg h4] at hser
              by_cases h5 : a.length < 0x400000000
              · rw [if_pos h5] at hser
                have hbs : bs = [0xF8 ||| (a.length / 4294967296),
                    (a.length / 16777216) % 256, (a.length / 65536) % 256,
                    (a.length / 256) % 256, a.length % 256] ++ a := by
                  simpa using hser.symm
                subst hbs
                have hk : a.length / 4294967296 < 4 := by omega
                have hprops := tag_b5 (a.length / 4294967296) hk
                have := parse_tag_atom f (0xF8 ||| (a.length / 4294967296)) 5
                  (a.length / 4294967296)
                  [(a.length / 16777216) % 256, (a.length / 65536) % 256,
                    (a.length / 256) % 256, a.length % 256] a rest
                  hprops.1 hprops.2.1 hprops.2.2
                  (clearOnes_b5 (a.length / 4294967296) hk) rfl
                  (by simp [bytesToNatBE]; omega) (by omega)
                simpa using this
              · rw [if_neg h5] at hser
                simp at hser


@[simp] lemma oBind_some {α β : Type} (x : α) (f : α → Option β) :
    (some x >>= f : Option β) = f x := rfl

@[simp] lemma oBind_none {α β : Type} (f : α → Option β) :
    (none >>= f : Option β) = none := rfl

lemma serialize_length_pos : ∀ (p : Program) (bs : Bytes),
    serialize p = some bs → 1 ≤ bs.length := by
  intro p bs h
  cases p with
  | atom a =>
    unfold serialize serializeAtom atomSizeBlob at h
    split_ifs at h with h1 h2 h3 h4 h5 h6 h7 <;> simp at h <;> simp [← h]
    omega
  | pair l r =>
    unfold serialize at h
    cases hsl : serialize l with
    | none => rw [hsl] at h; simp at h
    | some sl =>
      rw [hsl] at h
      cases hsr : serialize r with
      | none => rw [hsr] at h; simp at h
      | some sr =>
        rw [hsr] at h
        simp at h
        simp [← h]

lemma parse_serialize : ∀ (p : Program) (bs : Bytes), serialize p = some bs →
    ∀ (fuel : Nat) (rest : Bytes), bs.length ≤ fuel →
    parseSE fuel (bs ++ rest) = some (p, rest) := by
  intro p
  induction p with
  | atom a =>
    intro bs hser fuel rest hfuel
    have h1 : 1 ≤ bs.length := serialize_length_pos _ _ hser
    obtain ⟨f, rfl⟩ : ∃ f, fuel = f + 1 := ⟨fuel - 1, by omega⟩
    exact parse_serializeAtom a bs hser f rest
  | pair l r ihl ihr =>
    intro bs hser fuel rest hfuel
    unfold serialize at hser
    cases hsl : serialize l with
    | none => rw [hsl] at hser; simp at hser
    | some sl =>
      rw [hsl] at hser
      cases hsr : serialize r with
      | none => rw [hsr] at hser; simp at hser
      | some sr =>
        rw [hsr] at hser
        simp at hser
        have hbs : bs = 0xFF :: (sl ++ sr) := hser.symm
        subst hbs
        have hlen : sl.length + sr.length + 1 ≤ fuel := by
          simpa using hfuel
        obtain ⟨f, rfl⟩ : ∃ f, fuel = f + 1 := ⟨fuel - 1, by omega⟩
        simp only [List.cons_append, List.append_assoc]
        conv_lhs => rw [parseSE]
        rw [if_pos rfl]
        rw [ihl sl hsl f (sr ++ rest) (by omega)]
        simp only [oBind_some]
        rw [ihr sr hsr f rest (by omega)]
        rfl

/-- **C8.** Every byte buffer that is a valid canonical program encoding
(i.e. the serialization of some program) decodes via `Program.from_bytes` to
a program that re-encodes to the identical buffer; and appending any
non-empty trailing bytes to a complete top-level encoding makes
`Program.from_bytes` fail instead of returning a program. -/
theorem program_codec_round_trip :
    (∀ (b : Bytes), (∃ p, serialize p = some b) →
      ∃ p, from_bytes b = some p ∧ serialize p = some b)
  ∧ (∀ (p : Program) (bs extra : Bytes), serialize p = some bs → extra ≠ [] →
      from_bytes (bs ++ extra) = none) := by
  constructor
  · rintro b ⟨p, hp⟩
    refine ⟨p, ?_, hp⟩
    unfold from_bytes
    have := parse_serialize p b hp (b.length + 1) [] (by omega)
    rw [List.append_nil] at this
    rw [this]
  · intro p bs extra hser hne
    unfold from_bytes
    have := parse_serialize p bs hser ((bs ++ extra).length + 1) extra
      (by simp [List.length_append]; omega)
    rw [this]
    cases extra with
    | nil => exact absurd rfl hne
    | cons x xs => rfl

/-- Witness for **C8** at the encoding `ff 01 80` of `([1] . ())`. -/
theorem program_codec_round_trip_witness :
    serialize (.pair (.atom [1]) (.atom [])) = some [255, 1, 128]
    ∧ (∃ p, from_bytes [255, 1, 128] = some p ∧ serialize p = some [255, 1, 128])
    ∧ from_bytes ([255, 1, 128] ++ [0]) = none :=
  ⟨by rfl,
    program_codec_round_trip.1 [255, 1, 128] ⟨.pair (.atom [1]) (.atom []), by rfl⟩,
    program_codec_round_trip.2 (.pair (.atom [1]) (.atom [])) [255, 1, 128] [0]
      (by rfl) (by decide)⟩

end OpenApi
